import Mathlib

/-!
# go-fsak — shallow embedding and verification

A shallow embedding of the core of the `go-fsak` repository (a
content-addressed file catalog with a sync pipeline, a duplicate
resolver and a merge engine), together with theorems settling the
frozen specification claims.

Conventions of the embedding:
* The SQLite-backed catalog (`src/data/sqlite.go`) is modelled as a
  `List FileInfo` in table order; GORM's query combinators are
  modelled by the corresponding list operations.
* File contents are byte lists (`List Nat`, each byte `< 256` where it
  matters); hash algorithms (Blake3, MD5) live in external libraries,
  so digests are abstract function parameters, while everything the
  repository itself computes (hex encoding, the dual-hash single-read
  plumbing, path juggling) is embedded concretely.
* Filesystem interaction (`os.Stat`, `os.Open`/reads, `os.Rename`) is
  modelled by explicit oracle functions passed to the operations, and
  Go `error` returns become `Except String` / `Option`.
-/

namespace Fsak

/-- `data.FileInfo` (src/data/sqlite.go): one catalog row.
Times are modelled as `Nat` (Unix nanoseconds); `ID` is the
auto-increment primary key, `Key` carries a unique index. -/
structure FileInfo where
  ID     : Nat
  Key    : String
  Name   : String
  Path   : String
  Status : Nat
  MD5    : String
  Blake3 : String
  Size   : Nat
  Tag    : String
  MTime  : Nat
  CTime  : Nat
deriving Repr, DecidableEq

/-- Equality on `Except` results is decidable (needed to evaluate
concrete runs in witnesses). -/
instance {ε α : Type} [DecidableEq ε] [DecidableEq α] :
    DecidableEq (Except ε α) := fun a b =>
  match a, b with
  | .error e₁, .error e₂ =>
    if h : e₁ = e₂ then .isTrue (congrArg Except.error h)
    else .isFalse (fun hh => h (by injection hh))
  | .ok x, .ok y =>
    if h : x = y then .isTrue (congrArg Except.ok h)
    else .isFalse (fun hh => h (by injection hh))
  | .error _, .ok _ => .isFalse (fun hh => Except.noConfusion hh)
  | .ok _, .error _ => .isFalse (fun hh => Except.noConfusion hh)

/-- The catalog table `tb_file_infos`, in row order. -/
abbrev Catalog := List FileInfo

/-- `DB.GetFileInfoByPath` (src/data/sqlite.go): `First` row whose
`path` column equals the argument; `none` models
`gorm.ErrRecordNotFound`. -/
def getFileInfoByPath (cat : Catalog) (path : String) : Option FileInfo :=
  cat.find? (fun r => r.Path == path)

/-- `DB.UpsertFileInfo` (src/data/sqlite.go): look the row up by `key`;
if absent, `Create` (append); if present, `Save` the new values under
the existing row's primary `ID`, in place. -/
def upsertFileInfo (cat : Catalog) (e : FileInfo) : Catalog :=
  if cat.any (fun r => r.Key == e.Key) then
    cat.map (fun r => if r.Key == e.Key then { e with ID := r.ID } else r)
  else
    cat ++ [e]

/-- `DB.DeleteFileInfo` (src/data/sqlite.go): SQL
`DELETE FROM tb_file_infos WHERE key = ?`.  Deleting zero rows is not
an error in SQL/GORM, so the operation is total on the table contents;
backend I/O failures are outside this model. -/
def deleteFileInfo (cat : Catalog) (key : String) : Catalog :=
  cat.filter (fun r => ¬ r.Key == key)

/-- `GetAllFileInfos` returns the whole table (identity in this model). -/
def getAllFileInfos (cat : Catalog) : List FileInfo := cat

/-- The `key` column carries a `unique` index
(`gorm:"...;unique;index"`), so table states have pairwise distinct
keys.  Theorems that need this state it as a hypothesis. -/
abbrev keysUnique (cat : Catalog) : Prop :=
  (cat.map FileInfo.Key).Nodup

/-- Result of `os.Stat` as the cleaning pass inspects it :
`found` (no error), `notExist` (an error with `os.IsNotExist`), or
`statError` (any other error, e.g. permission denied). -/
inductive StatResult where
  | found
  | notExist
  | statError
deriving DecidableEq, Repr

/-- `cleanFileInfoTable` (src/core/clean.go lines 91-147): load all
rows, mark exactly those whose `os.Stat(record.Path)` reports
non-existence, then delete each marked row by its key. -/
def cleanFileInfoTable (stat : String → StatResult) (cat : Catalog) : Catalog :=
  let recordsToDelete :=
    (getAllFileInfos cat).filter (fun r => stat r.Path == .notExist)
  recordsToDelete.foldl (fun acc r => deleteFileInfo acc r.Key) cat

/-! ## Paths, filesystem, and the fingerprint engine -/

/-- `filepath.Abs` for the worker's `absPath` (src/unnamed/part_007):
a path is absolute iff it starts with the separator (`filepath.IsAbs`
on Unix); a relative path gets the working directory prefixed.  (Go
additionally `Clean`s the result; cleaning is not modelled and no
claim depends on it.) -/
def filepathAbs (cwd path : String) : String :=
  if path.data.head? = some '/' then path else cwd ++ "/" ++ path

/-- `filepath.Base`: last path element, after dropping trailing
separators; `/` for the root, `.` for an empty path. -/
def filepathBase (path : String) : String :=
  let parts := (path.data.splitOn '/').filter (fun s => s ≠ [])
  match parts.getLast? with
  | some p => String.mk p
  | none => if path.data.head? = some '/' then "/" else "."

/-- What `os.Open`+`Read`+`Stat` can observe of one file: the
successive chunks its reads return, whether a read fails after those
chunks, and the stat metadata.  The full byte contents are
`chunks.join`. -/
structure FileData where
  chunks    : List (List Nat)
  readFails : Bool
  size      : Nat
  mtime     : Nat
  ctime     : Nat
deriving Repr, DecidableEq

/-- The filesystem oracle: `none` means `os.Open`/`os.Stat` fail for
the path. -/
abbrev FileSystem := String → Option FileData

/-- A streaming hash accumulator (the shape shared by
`crypto/md5` and `lukechampine.com/blake3`, both external libraries):
an internal state, a byte-chunk update, and a raw digest-byte
finalizer.  The algorithms themselves stay abstract. -/
structure Hasher (σ : Type) where
  init   : σ
  update : σ → List Nat → σ
  digest : σ → List Nat

/-- The streaming laws every real hash accumulator satisfies: writing
no bytes changes nothing, and feeding two chunks in sequence equals
feeding their concatenation. -/
def Streaming {σ : Type} (h : Hasher σ) : Prop :=
  (∀ s, h.update s [] = s) ∧
  (∀ s a b, h.update (h.update s a) b = h.update s (a ++ b))

/-- The sixteen lowercase hexadecimal digits, as
`encoding/hex.EncodeToString` emits them. -/
def hexChars : List Char :=
  "0123456789abcdef".data

/-- One byte as two lowercase hex characters. -/
def hexByte (b : Nat) : List Char :=
  [hexChars.getD (b / 16 % 16) '0', hexChars.getD (b % 16) '0']

/-- `hex.EncodeToString` over digest bytes. -/
def hexEncode (bs : List Nat) : String :=
  String.mk (bs.flatMap hexByte)

/-- A string made only of lowercase hexadecimal digits. -/
def IsLowerHex (s : String) : Prop :=
  ∀ c ∈ s.data, c ∈ hexChars

/-- `io.Copy(io.MultiWriter(blake3Hash, md5Hash), f)` (part_002):
each chunk the single sequential read produces is fed to both
accumulators simultaneously. -/
def copyMultiWriter {σ₁ σ₂ : Type} (hb : Hasher σ₁) (hm : Hasher σ₂) :
    List (List Nat) → σ₁ → σ₂ → σ₁ × σ₂
  | [], s₁, s₂ => (s₁, s₂)
  | c :: cs, s₁, s₂ => copyMultiWriter hb hm cs (hb.update s₁ c) (hm.update s₂ c)

/-- `util.FileBlake3MD5` (src/unnamed/part_002 lines 89-112): open the
file; on success, one `io.Copy` feeds the byte stream into both
hashers; any open or read failure returns the error and no digests
(the partially accumulated states are discarded); on success both
digests are returned hex-encoded, Blake3 first. -/
def FileBlake3MD5 {σ₁ σ₂ : Type} (hb : Hasher σ₁) (hm : Hasher σ₂)
    (fs : FileSystem) (path : String) : Except String (String × String) :=
  match fs path with
  | none => .error ("open " ++ path)
  | some d =>
    if d.readFails then
      .error ("read " ++ path)
    else
      let st := copyMultiWriter hb hm d.chunks hb.init hm.init
      .ok (hexEncode (hb.digest st.1), hexEncode (hm.digest st.2))

/-- A concrete hash accumulator (state = bytes seen so far) used to
instantiate the abstract hasher parameters in witnesses. -/
def concatHasher : Hasher (List Nat) :=
  { init := [], update := fun s c => s ++ c, digest := fun s => s }

/-- A one-file filesystem delivering the bytes `[1, 2, 3]` in two read
chunks, used in witnesses. -/
def exampleFS : FileSystem := fun p =>
  if p == "/t/f.bin" then
    some { chunks := [[1, 2], [3]], readFails := false, size := 3, mtime := 7, ctime := 7 }
  else
    none

/-! ## The sync pipeline worker and run model -/

/-- The hash functions the pipeline uses: the path-key hash
`util.CalculateBlake3String` and the two content hashers.  All live in
external libraries, so they are abstract parameters. -/
structure HashCtx (σ₁ σ₂ : Type) where
  blake3String : String → String
  hb : Hasher σ₁
  hm : Hasher σ₂

/-- `processFileInfoOnly` (src/unnamed/part_007 lines 275-329): stat
the file; compute the absolute path; unless `force`, look the absolute
path up in the catalog and skip (produce nothing) on a hit; otherwise
key the entry by the Blake3 of the absolute path, fingerprint the file
and build the candidate row.  `.ok none` is the skip outcome;
`.error` is a per-file failure reported by the worker. -/
def processFileInfoOnly {σ₁ σ₂ : Type} (H : HashCtx σ₁ σ₂) (fs : FileSystem)
    (cwd : String) (cat : Catalog) (filePath tag : String) (force : Bool) :
    Except String (Option FileInfo) :=
  match fs filePath with
  | none => .error ("error getting file info for " ++ filePath)
  | some st =>
    let absPath := filepathAbs cwd filePath
    if !force && (getFileInfoByPath cat absPath).isSome then
      .ok none
    else
      let key := H.blake3String absPath
      match FileBlake3MD5 H.hb H.hm fs filePath with
      | .error e => .error e
      | .ok digests =>
        .ok (some { ID := 0, Key := key, Name := filepathBase filePath,
                    Path := absPath, Status := 0, MD5 := digests.2,
                    Blake3 := digests.1, Size := st.size, Tag := tag,
                    MTime := st.mtime, CTime := st.ctime })

/-- The candidate entries one sync run produces: every worker checks
against the catalog as it stood at the start of the run, and failed or
skipped paths contribute nothing (part_007 lines 148-155). -/
def runSyncEntries {σ₁ σ₂ : Type} (H : HashCtx σ₁ σ₂) (fs : FileSystem)
    (cwd : String) (cat : Catalog) (paths : List String) (tag : String)
    (force : Bool) : List FileInfo :=
  paths.filterMap (fun p =>
    match processFileInfoOnly H fs cwd cat p tag force with
    | .ok (some e) => some e
    | _ => none)

/-- One drained sync run: the collector upserts every candidate entry,
in arrival order (part_007 lines 160-218). -/
def runSync {σ₁ σ₂ : Type} (H : HashCtx σ₁ σ₂) (fs : FileSystem)
    (cwd : String) (cat : Catalog) (paths : List String) (tag : String)
    (force : Bool) : Catalog :=
  (runSyncEntries H fs cwd cat paths tag force).foldl upsertFileInfo cat

/-- A row whose key is the path-key hash of its own path — the shape
of every row the sync pipeline and the merge engine write. -/
def WFRow {σ₁ σ₂ : Type} (H : HashCtx σ₁ σ₂) (r : FileInfo) : Prop :=
  r.Key = H.blake3String r.Path

/-- A catalog all of whose rows are well-keyed. -/
def WFCatalog {σ₁ σ₂ : Type} (H : HashCtx σ₁ σ₂) (cat : Catalog) : Prop :=
  ∀ r ∈ cat, WFRow H r

/-! ## The duplicate scan -/

/-- Loop body of `handleDuplicateFiles` (src/core/clean.go lines
178-229) for a walked path with no catalog row: fingerprint it (on
failure warn and continue — produce nothing), stat it (same), then
build the row.  The row's `Path` and `Key` use the path exactly as
walked — `filePath` is never passed through `filepath.Abs`, although
the source comments the key line with "Key is Blake3 of absolute
path"; `CTime` reuses `ModTime`. -/
def dupScanNewEntry {σ₁ σ₂ : Type} (H : HashCtx σ₁ σ₂) (fs : FileSystem)
    (filePath : String) : Option FileInfo :=
  match FileBlake3MD5 H.hb H.hm fs filePath with
  | .error _ => none
  | .ok digests =>
    match fs filePath with
    | none => none
    | some st =>
      some { ID := 0, Path := filePath, Name := filepathBase filePath,
             Key := H.blake3String filePath, MD5 := digests.2,
             Blake3 := digests.1, Size := st.size, MTime := st.mtime,
             CTime := st.mtime, Status := 0, Tag := "" }

/-- A filesystem where one physical file is reachable both under the
raw walked path (as `clean dup photos` walks it from `/home/user`) and
under its absolute path. -/
def relativeFS : FileSystem := fun p =>
  if p == "photos/a.jpg" || p == "/home/user/photos/a.jpg" then
    some { chunks := [[65]], readFails := false, size := 1, mtime := 5, ctime := 5 }
  else
    none

/-- A concrete hash context (identity path-key hash, concatenation
content hashers) used to instantiate witnesses. -/
def idHashCtx : HashCtx (List Nat) (List Nat) :=
  { blake3String := id, hb := concatHasher, hm := concatHasher }

/-- A concrete catalog row used in witnesses. -/
def exFileA : FileInfo :=
  { ID := 1, Key := "k1", Name := "a", Path := "/d/a", Status := 0,
    MD5 := "m", Blake3 := "b", Size := 1, Tag := "", MTime := 0, CTime := 0 }

/-- Another concrete catalog row used in witnesses. -/
def exFileB : FileInfo :=
  { ID := 2, Key := "k2", Name := "b", Path := "/d/b", Status := 0,
    MD5 := "m", Blake3 := "b", Size := 1, Tag := "", MTime := 0, CTime := 0 }

/-! ## Blacklist patterns (util.ReadBlacklist, src/unnamed/part_005)

The repository delegates matching to Go's `regexp` package (an
external library).  The model embeds the fragment of its syntax the
blacklist format exercises — literal characters, backslash escapes,
`.`, and the `^`/`$` text anchors; constructs outside the fragment are
parse errors here (Go accepts more; no claim involves them). -/

/-- One compiled regex atom: a literal character or `.` (any character
except newline). -/
inductive RAtom where
  | ch (c : Char)
  | dot
deriving DecidableEq, Repr

/-- A compiled pattern: optional text anchors around a sequence of
atoms. -/
structure RPattern where
  anchorStart : Bool
  atoms : List RAtom
  anchorEnd : Bool
deriving DecidableEq, Repr

/-- Metacharacters outside the modelled fragment. -/
def unsupportedMeta : List Char :=
  "*+?()[]\x7b\x7d|^".data

/-- Parse a pattern body (everything after an optional leading `^`):
`$` terminates the body as the end anchor; `\c` escapes a
non-alphanumeric character to a literal; `.` is the any-character
atom; other characters are literals. -/
def parseBody : List Char → Except String (List RAtom × Bool)
  | [] => .ok ([], false)
  | c :: rest =>
    if c = '$' then
      if rest = [] then .ok ([], true)
      else .error "unsupported: interior dollar"
    else if c = '\\' then
      match rest with
      | [] => .error "trailing backslash"
      | e :: rest' =>
        if e.isAlphanum then .error "unsupported escape"
        else (parseBody rest').map (fun r => (.ch e :: r.1, r.2))
    else if c = '.' then
      (parseBody rest).map (fun r => (.dot :: r.1, r.2))
    else if c ∈ unsupportedMeta then
      .error "unsupported metacharacter"
    else
      (parseBody rest).map (fun r => (.ch c :: r.1, r.2))

/-- `regexp.Compile` on the modelled fragment: an optional leading `^`
anchor, then the body. -/
def regexpCompile (pat : List Char) : Except String RPattern :=
  match pat with
  | '^' :: rest => (parseBody rest).map (fun r => ⟨true, r.1, r.2⟩)
  | rest => (parseBody rest).map (fun r => ⟨false, r.1, r.2⟩)

/-- Does one atom match one character? -/
def atomMatches : RAtom → Char → Bool
  | .ch c, x => c == x
  | .dot, x => !(x == '\n')

/-- Do the atoms match this exact character list? -/
def atomsMatch : List RAtom → List Char → Bool
  | [], [] => true
  | a :: as, x :: xs => atomMatches a x && atomsMatch as xs
  | _, _ => false

/-- Do the atoms match some prefix of the character list? -/
def atomsMatchPrefix : List RAtom → List Char → Bool
  | [], _ => true
  | _ :: _, [] => false
  | a :: as, x :: xs => atomMatches a x && atomsMatchPrefix as xs

/-- `Regexp.MatchString`: an unanchored pattern matches anywhere in
the text, `^`/`$` pin the match to the start/end of the text. -/
def rMatch (p : RPattern) (s : List Char) : Bool :=
  match p.anchorStart, p.anchorEnd with
  | true, true => atomsMatch p.atoms s
  | true, false => atomsMatchPrefix p.atoms s
  | false, true => s.tails.any (fun t => atomsMatch p.atoms t)
  | false, false => s.tails.any (fun t => atomsMatchPrefix p.atoms t)

/-- The characters `regexp.QuoteMeta` escapes. -/
def goRegexSpecial : List Char :=
  "\\.+*?()|[]\x7b\x7d^$".data

/-- `regexp.QuoteMeta`: backslash-escape every special character. -/
def quoteMeta (s : List Char) : List Char :=
  s.flatMap (fun c => if c ∈ goRegexSpecial then ['\\', c] else [c])

/-- Characters `strings.TrimSpace` removes (the ASCII ones; paths and
patterns in this repository contain no exotic Unicode space). -/
def isSpaceChar (c : Char) : Bool :=
  c == ' ' || c == '\t' || c == '\n' || c == '\r'

/-- `strings.TrimSpace`. -/
def trimSpace (s : List Char) : List Char :=
  ((s.dropWhile isSpaceChar).reverse.dropWhile isSpaceChar).reverse

/-- `util.ReadBlacklist` (src/unnamed/part_005 lines 11-54) over the
file's lines: a trimmed blank line is skipped; a line wrapped in
slashes compiles the inner text as a regex; any other line compiles
`^` + QuoteMeta(line) + `$`; the first compile error aborts the
load. -/
def readBlacklistLines : List (List Char) → Except String (List RPattern)
  | [] => .ok []
  | l :: ls =>
    let line := trimSpace l
    if line = [] then
      readBlacklistLines ls
    else
      let pat :=
        if 2 ≤ line.length && line.head? == some '/' && line.getLast? == some '/' then
          regexpCompile ((line.drop 1).dropLast)
        else
          regexpCompile ('^' :: quoteMeta line ++ ['$'])
      match pat with
      | .error e => .error e
      | .ok p =>
        match readBlacklistLines ls with
        | .error e => .error e
        | .ok ps => .ok (p :: ps)

/-- Blacklist check of the sync walker (part_007 lines 233-245): a
path is skipped iff some pattern matches it. -/
def isBlacklisted (pats : List RPattern) (path : String) : Bool :=
  pats.any (fun p => rMatch p path.data)

/-- The files the walker yields: the candidates that no pattern
matches. -/
def walkFilter (pats : List RPattern) (files : List String) : List String :=
  files.filter (fun f => !isBlacklisted pats f)

/-! ## The duplicate resolver (src/core/clean.go) -/

/-- One entry the `filepath.Walk` callback sees: a file, a directory,
or an entry whose stat failed (callback invoked with a non-nil
error). -/
inductive WalkEntry where
  | file (path : String)
  | dir (path : String)
  | broken (path : String)
deriving DecidableEq, Repr

/-- Is this walk entry one whose stat failed? -/
def isBroken : WalkEntry → Bool
  | .broken _ => true
  | _ => false

/-- `getAllFilesInFolder` (clean.go lines 362-379): the callback
returns nil on a broken entry, so the walk skips it and continues; of
the rest only files are collected. -/
def getAllFilesInFolder (entries : List WalkEntry) : List String :=
  entries.filterMap (fun e =>
    match e with
    | .file p => some p
    | _ => none)

/-- The sync pipeline's walk callback (part_007 lines 224-251)
returns the error on a broken entry, which makes `filepath.Walk`
abort this root's traversal; paths already sent stand.  Result:
(paths sent to the workers, whether the walk aborted). -/
def walkCollectSync (pats : List RPattern) : List WalkEntry → List String × Bool
  | [] => ([], false)
  | .broken _ :: _ => ([], true)
  | .dir _ :: rest => walkCollectSync pats rest
  | .file p :: rest =>
    if isBlacklisted pats p then
      walkCollectSync pats rest
    else
      let r := walkCollectSync pats rest
      (p :: r.1, r.2)

/-- The fingerprint phase of `handleDuplicateFiles` (clean.go lines
178-229): for each walked path, reuse the catalog row found by path;
otherwise fingerprint and stat the file (a failure warns and skips
just this file) and upsert the fresh row.  Returns the fingerprinted
rows in walk order and the updated catalog. -/
def dupScanFiles {σ₁ σ₂ : Type} (H : HashCtx σ₁ σ₂) (fs : FileSystem) :
    Catalog → List String → List FileInfo × Catalog
  | cat, [] => ([], cat)
  | cat, p :: rest =>
    match getFileInfoByPath cat p with
    | some fi =>
      let r := dupScanFiles H fs cat rest
      (fi :: r.1, r.2)
    | none =>
      match dupScanNewEntry H fs p with
      | none => dupScanFiles H fs cat rest
      | some fi =>
        let r := dupScanFiles H fs (upsertFileInfo cat fi) rest
        (fi :: r.1, r.2)

/-- State of the destructive phase: moves performed (source,
destination), delete-failure warnings, the count of fully processed
files, and the catalog. -/
structure MoveState where
  moved : List (String × String)
  warnings : List String
  processed : Nat
  cat : Catalog
deriving DecidableEq, Repr

/-- The per-group action loop of `handleDuplicateFiles` (clean.go
lines 309-348) over the files chosen for removal: move the file to the
deletion area (a rename failure returns the error, aborting the whole
run, line 331); after a successful move delete the catalog row by the
hash of the row's path — a delete failure only warns and the loop
continues (lines 339-344); the move is never undone. -/
def processChosen {σ₁ σ₂ : Type} (H : HashCtx σ₁ σ₂)
    (renameFails : String → Bool) (deleteFails : String → Bool)
    (deletedDir : String) (relPath : String → String) :
    List FileInfo → MoveState → Except String MoveState
  | [], st => .ok st
  | f :: rest, st =>
    let dest := deletedDir ++ "/" ++ relPath f.Path
    if renameFails f.Path then
      .error ("error moving file " ++ f.Path ++ " to " ++ dest)
    else
      let key := H.blake3String f.Path
      if deleteFails key then
        processChosen H renameFails deleteFails deletedDir relPath rest
          { st with
            moved := st.moved ++ [(f.Path, dest)],
            warnings := st.warnings ++ ["could not delete record for " ++ f.Path] }
      else
        processChosen H renameFails deleteFails deletedDir relPath rest
          { st with
            moved := st.moved ++ [(f.Path, dest)],
            cat := deleteFileInfo st.cat key,
            processed := st.processed + 1 }

/-! ## The merge engine (src/core/root.go) -/

/-- The digest pair of one file (root.go `FileHashes`). -/
structure FileHashes where
  MD5 : String
  Blake3 : String
deriving DecidableEq, Repr

/-- Does the digest pair of `s` occur among the target files?
(performMerge lines 155-166: the pairwise scan with the `found`
flag.) -/
def pairInTarget (targetFiles : List (String × FileHashes)) (h : FileHashes) : Bool :=
  targetFiles.any (fun t => h.MD5 == t.2.MD5 && h.Blake3 == t.2.Blake3)

/-- The copy loop of `performMerge` (root.go lines 171-234): each
novel file is copied to the backup directory at its path relative to
the source root; a copy failure aborts the whole merge.  Returns the
(source, destination) pairs of the copies performed.  (The post-copy
catalog upsert for each destination is not modelled; no claim refers
to it.) -/
def mergeCopyLoop (sourceDir backupDir : String) (copyFails : String → Bool) :
    List (String × FileHashes) → Except String (List (String × String))
  | [] => .ok []
  | (rel, _) :: rest =>
    let src := sourceDir ++ "/" ++ rel
    let dst := backupDir ++ "/" ++ rel
    if copyFails src then
      .error ("error copying " ++ src ++ " to " ++ dst)
    else
      (mergeCopyLoop sourceDir backupDir copyFails rest).map (fun l => (src, dst) :: l)

/-- `performMerge` (root.go lines 119-237): create the dated backup
directory `FSAK_<dateStr>` under the target, keep exactly the source
files whose digest pair occurs under no target file, and copy them.
Source and target trees are given as walk results: path relative to
the root, with the file's digest pair (as `getFilesWithHashes`
produces, from the catalog or fresh). -/
def performMerge (sourceDir targetDir dateStr : String)
    (copyFails : String → Bool)
    (sourceFiles targetFiles : List (String × FileHashes)) :
    Except String (List (String × String)) :=
  let backupDir := targetDir ++ "/" ++ "FSAK_" ++ dateStr
  let filesToCopy := sourceFiles.filter (fun s => !pairInTarget targetFiles s.2)
  mergeCopyLoop sourceDir backupDir copyFails filesToCopy

/-! ## The sync pipeline's completion race (part_007 lines 160-272)

After `wg.Wait()` every worker has finished, so every produced entry
sits in the buffered `resultCh`.  What remains is the interleaving of
the main goroutine — which closes `resultCh`, prints "Sync operation
completed." and returns (whereupon the process exits and the collector
goroutine is abandoned) — with the collector goroutine, which drains
the channel into its batch and flushes full batches, and flushes the
final partial batch only after seeing the channel closed and empty.
The model is a small transition system over exactly these two
threads. -/

/-- Thread identifiers of the completion phase. -/
inductive Tid where
  | main
  | collector
deriving DecidableEq, Repr

/-- Pipeline state after `wg.Wait()`: the entries still queued in
`resultCh`, whether the channel is closed, the collector's batch, the
catalog, the main goroutine's program counter (0 = about to
`close(resultCh)` at line 269, 1 = about to print success at line 271
and return, 2 = returned: process exited), whether completion was
reported, and whether the collector finished its final flush. -/
structure PipeState where
  queue : List FileInfo
  closed : Bool
  batch : List FileInfo
  cat : Catalog
  mainPC : Nat
  completionReported : Bool
  collectorDone : Bool
deriving DecidableEq, Repr

/-- One step of one thread.  The collector can only run while the
process is alive (`mainPC < 2`): returning from `processDirectories`
ends the program and abandons the goroutine. -/
def pipeStep (batchSize : Nat) : Tid → PipeState → PipeState
  | .main, s =>
    if s.mainPC = 0 then { s with closed := true, mainPC := 1 }
    else if s.mainPC = 1 then { s with completionReported := true, mainPC := 2 }
    else s
  | .collector, s =>
    if 2 ≤ s.mainPC ∨ s.collectorDone then s
    else
      match s.queue with
      | e :: rest =>
        let batch' := s.batch ++ [e]
        if batchSize ≤ batch'.length then
          { s with queue := rest, batch := [], cat := batch'.foldl upsertFileInfo s.cat }
        else
          { s with queue := rest, batch := batch' }
      | [] =>
        if s.closed then
          { s with batch := [], cat := s.batch.foldl upsertFileInfo s.cat,
                   collectorDone := true }
        else s

/-- Run a schedule. -/
def pipeRun (batchSize : Nat) (sched : List Tid) (s : PipeState) : PipeState :=
  sched.foldl (fun s t => pipeStep batchSize t s) s

theorem foldl_deleteFileInfo_eq_filter (ds : List FileInfo) (cat : Catalog) :
    ds.foldl (fun acc r => deleteFileInfo acc r.Key) cat
      = cat.filter (fun r => ds.all (fun d => ¬ r.Key == d.Key)) := by
  induction ds generalizing cat with
  | nil =>
    simp [List.filter_eq_self]
  | cons d ds ih =>
    rw [List.foldl_cons, ih]
    unfold deleteFileInfo
    rw [List.filter_filter]
    apply List.filter_congr
    intro r _
    rw [Bool.eq_iff_iff]
    simp [Bool.and_comm]

/-- Key injectivity on rows of a table with unique keys. -/
theorem eq_of_key_eq {cat : Catalog} (hu : keysUnique cat)
    {r d : FileInfo} (hr : r ∈ cat) (hd : d ∈ cat)
    (hk : r.Key = d.Key) : r = d :=
  List.inj_on_of_nodup_map hu hr hd hk

/-- **C9.** The cleaning pass deletes exactly the rows whose path
stats as non-existent and leaves every other row unchanged: on any
table with unique keys it equals the filter keeping the rows whose
stat does not report non-existence. -/
theorem cleanFileInfoTable_eq_filter (stat : String → StatResult)
    (cat : Catalog) (hu : keysUnique cat) :
    cleanFileInfoTable stat cat
      = cat.filter (fun r => ¬ stat r.Path == .notExist) := by
  unfold cleanFileInfoTable getAllFileInfos
  rw [foldl_deleteFileInfo_eq_filter]
  apply List.filter_congr
  intro r hr
  rw [Bool.eq_iff_iff]
  simp only [List.all_eq_true, List.mem_filter, decide_eq_true_eq,
    Bool.not_eq_true', beq_eq_false_iff_ne, ne_eq, beq_iff_eq]
  constructor
  · intro hall hs
    exact hall r ⟨hr, by simp [hs]⟩ rfl
  · intro hne d hd hk
    have hdcat := hd.1
    have hds : stat d.Path = .notExist := by simpa using hd.2
    exact hne (eq_of_key_eq hu hr hdcat hk ▸ hds)

/-- Witness for C9: a two-row catalog where exactly the second row's
path has disappeared from disk loses exactly that row. -/
theorem cleanFileInfoTable_eq_filter_witness :
    let r1 : FileInfo :=
      { ID := 1, Key := "k1", Name := "a", Path := "/t/a", Status := 0,
        MD5 := "m1", Blake3 := "b1", Size := 3, Tag := "", MTime := 0, CTime := 0 }
    let r2 : FileInfo :=
      { ID := 2, Key := "k2", Name := "b", Path := "/t/b", Status := 0,
        MD5 := "m2", Blake3 := "b2", Size := 4, Tag := "", MTime := 0, CTime := 0 }
    let stat : String → StatResult := fun p => if p == "/t/b" then .notExist else .found
    cleanFileInfoTable stat [r1, r2] = [r1] := by
  intro r1 r2 stat
  have h := cleanFileInfoTable_eq_filter stat [r1, r2] (by decide)
  rw [h]
  rfl

/-- **C10.** Deleting an absent key is not a failure and leaves every
row unchanged: if no row of the catalog has key `k`, then
`DeleteFileInfo k` returns the catalog unchanged.  (The operation is
total in this model because SQL `DELETE` affecting zero rows succeeds;
only backend I/O faults — outside the model — can make it error.) -/
theorem deleteFileInfo_absent_key (cat : Catalog) (k : String)
    (habs : ∀ r ∈ cat, r.Key ≠ k) :
    deleteFileInfo cat k = cat := by
  unfold deleteFileInfo
  rw [List.filter_eq_self]
  intro r hr
  simpa using habs r hr

/-- Feeding the chunk sequence through both accumulators is the same
as feeding each the concatenated full contents. -/
theorem copyMultiWriter_flatten {σ₁ σ₂ : Type} {hb : Hasher σ₁} {hm : Hasher σ₂}
    (h₁ : Streaming hb) (h₂ : Streaming hm) :
    ∀ (cs : List (List Nat)) (s₁ : σ₁) (s₂ : σ₂),
      copyMultiWriter hb hm cs s₁ s₂
        = (hb.update s₁ cs.flatten, hm.update s₂ cs.flatten) := by
  intro cs
  induction cs with
  | nil =>
    intro s₁ s₂
    simp [copyMultiWriter, h₁.1, h₂.1]
  | cons c cs ih =>
    intro s₁ s₂
    simp [copyMultiWriter, ih, h₁.2, h₂.2]

/-- Every index of `hexChars` (or the default) is a lowercase hex
digit. -/
theorem getD_hexChars_mem (i : Nat) : hexChars.getD i '0' ∈ hexChars := by
  by_cases h : i < hexChars.length
  · rw [List.getD_eq_getElem _ _ h]
    exact List.getElem_mem h
  · rw [List.getD_eq_default _ _ (Nat.le_of_not_lt h)]
    decide

/-- Hex encoding produces only lowercase hexadecimal digits. -/
theorem hexEncode_isLowerHex (bs : List Nat) : IsLowerHex (hexEncode bs) := by
  intro c hc
  have hmem : c ∈ bs.flatMap hexByte := hc
  rcases List.mem_flatMap.mp hmem with ⟨b, _, hcb⟩
  simp only [hexByte, List.mem_cons, List.not_mem_nil, or_false] at hcb
  rcases hcb with h | h
  · exact h ▸ getD_hexChars_mem _
  · exact h ▸ getD_hexChars_mem _

/-- **C6.** The fingerprint engine: for a readable file the result is
`ok` with the Blake3 and MD5 digests of the full byte contents
(`chunks.flatten`), hex-encoded — so the result depends only on the
contents, not on how the single sequential read chunks them
(determinism); an open failure or a read failure yields an error and
no digests; and any digests returned are lowercase hexadecimal. -/
theorem FileBlake3MD5_spec {σ₁ σ₂ : Type} (hb : Hasher σ₁) (hm : Hasher σ₂)
    (h₁ : Streaming hb) (h₂ : Streaming hm) (fs : FileSystem) (path : String) :
    (∀ d, fs path = some d → d.readFails = false →
        FileBlake3MD5 hb hm fs path =
          .ok (hexEncode (hb.digest (hb.update hb.init d.chunks.flatten)),
               hexEncode (hm.digest (hm.update hm.init d.chunks.flatten))))
  ∧ (∀ (fs' : FileSystem) (path' : String) d d',
        fs path = some d → fs' path' = some d' →
        d.readFails = false → d'.readFails = false →
        d.chunks.flatten = d'.chunks.flatten →
        FileBlake3MD5 hb hm fs path = FileBlake3MD5 hb hm fs' path')
  ∧ (fs path = none → ∃ e, FileBlake3MD5 hb hm fs path = .error e)
  ∧ (∀ d, fs path = some d → d.readFails = true →
        ∃ e, FileBlake3MD5 hb hm fs path = .error e)
  ∧ (∀ x y, FileBlake3MD5 hb hm fs path = .ok (x, y) →
        IsLowerHex x ∧ IsLowerHex y) := by
  have hok : ∀ (g : FileSystem) (q : String) d, g q = some d → d.readFails = false →
      FileBlake3MD5 hb hm g q =
        .ok (hexEncode (hb.digest (hb.update hb.init d.chunks.flatten)),
             hexEncode (hm.digest (hm.update hm.init d.chunks.flatten))) := by
    intro g q d hd hrf
    unfold FileBlake3MD5
    rw [hd]
    simp only [hrf, Bool.false_eq_true, if_false]
    rw [copyMultiWriter_flatten h₁ h₂]
  refine ⟨hok fs path, ?_, ?_, ?_, ?_⟩
  · intro fs' path' d d' hd hd' hrf hrf' hsame
    rw [hok fs path d hd hrf, hok fs' path' d' hd' hrf', hsame]
  · intro hnone
    exact ⟨"open " ++ path, by unfold FileBlake3MD5; rw [hnone]⟩
  · intro d hd hrf
    exact ⟨"read " ++ path, by unfold FileBlake3MD5; rw [hd]; simp [hrf]⟩
  · intro x y hxy
    cases hfs : fs path with
    | none =>
      have herr : FileBlake3MD5 hb hm fs path = .error ("open " ++ path) := by
        unfold FileBlake3MD5; rw [hfs]
      rw [herr] at hxy
      exact absurd hxy (by simp)
    | some d =>
      by_cases hrf : d.readFails = true
      · have herr : FileBlake3MD5 hb hm fs path = .error ("read " ++ path) := by
          unfold FileBlake3MD5; rw [hfs]; simp [hrf]
        rw [herr] at hxy
        exact absurd hxy (by simp)
      · have hrf' : d.readFails = false := by simpa using hrf
        rw [hok fs path d hfs hrf'] at hxy
        simp only [Except.ok.injEq, Prod.mk.injEq] at hxy
        exact ⟨hxy.1 ▸ hexEncode_isLowerHex _, hxy.2 ▸ hexEncode_isLowerHex _⟩

/-- Witness for C6: applying the specification to the concrete
concatenation hasher and a concrete two-chunk file; the digest pair is
the hex encoding of the full contents `[1, 2, 3]`, twice. -/
theorem FileBlake3MD5_spec_witness :
    FileBlake3MD5 concatHasher concatHasher exampleFS "/t/f.bin"
      = .ok ("010203", "010203") := by
  have hstream : Streaming concatHasher :=
    ⟨fun s => by simp [concatHasher], fun s a b => by simp [concatHasher]⟩
  have h := (FileBlake3MD5_spec concatHasher concatHasher hstream hstream
      exampleFS "/t/f.bin").1
      { chunks := [[1, 2], [3]], readFails := false, size := 3, mtime := 7, ctime := 7 }
      (by decide) rfl
  rw [h]
  rfl

/-- Witness for C10: deleting a key held by no row of a concrete
catalog returns it unchanged. -/
theorem deleteFileInfo_absent_key_witness :
    let r1 : FileInfo :=
      { ID := 1, Key := "k1", Name := "a", Path := "/t/a", Status := 0,
        MD5 := "m1", Blake3 := "b1", Size := 3, Tag := "", MTime := 0, CTime := 0 }
    deleteFileInfo [r1] "nope" = [r1] := by
  intro r1
  exact deleteFileInfo_absent_key [r1] "nope" (by decide)

/-! ## Sync worker and pipeline idempotence (C5), catalog keying (C4) -/

/-- The catalog lookup by path succeeds exactly when some row has the
path. -/
theorem getFileInfoByPath_isSome (cat : Catalog) (P : String) :
    (getFileInfoByPath cat P).isSome ↔ ∃ r ∈ cat, r.Path = P := by
  unfold getFileInfoByPath
  rw [List.find?_isSome]
  constructor
  · rintro ⟨r, hr, h⟩
    exact ⟨r, hr, by simpa using h⟩
  · rintro ⟨r, hr, h⟩
    exact ⟨r, hr, by simpa using h⟩

/-- Upserting a well-keyed row preserves row presence by path and
installs the new row's path. -/
theorem upsertFileInfo_mem_path {σ₁ σ₂ : Type} {H : HashCtx σ₁ σ₂}
    (hinj : Function.Injective H.blake3String)
    {cat : Catalog} {e : FileInfo} (hwf : WFCatalog H cat) (hewf : WFRow H e)
    {P : String} (hP : (∃ r ∈ cat, r.Path = P) ∨ e.Path = P) :
    ∃ r ∈ upsertFileInfo cat e, r.Path = P := by
  unfold upsertFileInfo
  by_cases hany : cat.any (fun r => r.Key == e.Key)
  · rw [if_pos hany]
    rcases hP with ⟨r, hr, hrP⟩ | hep
    · by_cases hk : (r.Key == e.Key) = true
      · have hkey : r.Key = e.Key := by simpa using hk
        have hpath : r.Path = e.Path := hinj (by rw [← hwf r hr, ← hewf, hkey])
        refine ⟨{e with ID := r.ID}, List.mem_map.mpr ⟨r, hr, by simp [hk]⟩, ?_⟩
        simpa using (hpath ▸ hrP)
      · exact ⟨r, List.mem_map.mpr ⟨r, hr, by simp [hk]⟩, hrP⟩
    · rcases List.any_eq_true.mp hany with ⟨r, hr, hk⟩
      exact ⟨{e with ID := r.ID}, List.mem_map.mpr ⟨r, hr, by simp [hk]⟩, hep⟩
  · rw [if_neg hany]
    rcases hP with ⟨r, hr, hrP⟩ | hep
    · exact ⟨r, List.mem_append.mpr (.inl hr), hrP⟩
    · exact ⟨e, List.mem_append.mpr (.inr (List.mem_singleton.mpr rfl)), hep⟩

/-- Upserting a well-keyed row keeps the catalog well-keyed. -/
theorem upsertFileInfo_wf {σ₁ σ₂ : Type} {H : HashCtx σ₁ σ₂}
    {cat : Catalog} {e : FileInfo} (hwf : WFCatalog H cat) (hewf : WFRow H e) :
    WFCatalog H (upsertFileInfo cat e) := by
  unfold upsertFileInfo
  by_cases hany : cat.any (fun r => r.Key == e.Key)
  · rw [if_pos hany]
    intro r hr
    rcases List.mem_map.mp hr with ⟨r0, hr0, heq⟩
    by_cases hk : (r0.Key == e.Key) = true
    · rw [← heq]
      simp only [hk, if_true]
      exact hewf
    · rw [← heq]
      simp only [hk, if_false]
      exact hwf r0 hr0
  · rw [if_neg hany]
    intro r hr
    rcases List.mem_append.mp hr with h | h
    · exact hwf r h
    · rw [List.mem_singleton.mp h]
      exact hewf

/-- Collector writes preserve well-keyedness. -/
theorem foldl_upsert_wf {σ₁ σ₂ : Type} {H : HashCtx σ₁ σ₂} :
    ∀ (es : List FileInfo) (cat : Catalog), WFCatalog H cat →
      (∀ e ∈ es, WFRow H e) → WFCatalog H (es.foldl upsertFileInfo cat)
  | [], _, hwf, _ => hwf
  | e :: es, cat, hwf, hes => by
    rw [List.foldl_cons]
    exact foldl_upsert_wf es _ (upsertFileInfo_wf hwf (hes e (by simp)))
      (fun e' he' => hes e' (by simp [he']))

/-- Collector writes preserve (and add) row presence by path. -/
theorem foldl_upsert_path {σ₁ σ₂ : Type} {H : HashCtx σ₁ σ₂}
    (hinj : Function.Injective H.blake3String) :
    ∀ (es : List FileInfo) (cat : Catalog), WFCatalog H cat →
      (∀ e ∈ es, WFRow H e) →
      ∀ {P : String}, ((∃ r ∈ cat, r.Path = P) ∨ ∃ e ∈ es, e.Path = P) →
      ∃ r ∈ es.foldl upsertFileInfo cat, r.Path = P
  | [], cat, _, _, _, hP => by
    rcases hP with h | ⟨e, he, _⟩
    · simpa using h
    · simp at he
  | e :: es, cat, hwf, hes, P, hP => by
    rw [List.foldl_cons]
    have hewf : WFRow H e := hes e (by simp)
    have hwf' := upsertFileInfo_wf hwf hewf
    have hes' : ∀ e' ∈ es, WFRow H e' := fun e' he' => hes e' (by simp [he'])
    rcases hP with h | ⟨e', he', hp'⟩
    · exact foldl_upsert_path hinj es _ hwf' hes'
        (.inl (upsertFileInfo_mem_path hinj hwf hewf (.inl h)))
    · rcases List.mem_cons.mp he' with rfl | htail
      · exact foldl_upsert_path hinj es _ hwf' hes'
          (.inl (upsertFileInfo_mem_path hinj hwf hewf (.inr hp')))
      · exact foldl_upsert_path hinj es _ hwf' hes' (.inr ⟨e', htail, hp'⟩)

/-- Equation lemma: a worker whose stat fails reports a per-file
error. -/
theorem processFileInfoOnly_none {σ₁ σ₂ : Type} {H : HashCtx σ₁ σ₂}
    {fs : FileSystem} {cwd : String} {cat : Catalog} {p tag : String}
    {force : Bool} (hst : fs p = none) :
    processFileInfoOnly H fs cwd cat p tag force
      = .error ("error getting file info for " ++ p) := by
  unfold processFileInfoOnly
  rw [hst]

/-- Equation lemma: a worker whose stat succeeds either skips on a
catalog hit (unless forced) or fingerprints and builds the row. -/
theorem processFileInfoOnly_some {σ₁ σ₂ : Type} {H : HashCtx σ₁ σ₂}
    {fs : FileSystem} {cwd : String} {cat : Catalog} {p tag : String}
    {force : Bool} {st : FileData} (hst : fs p = some st) :
    processFileInfoOnly H fs cwd cat p tag force
      = if !force && (getFileInfoByPath cat (filepathAbs cwd p)).isSome then
          .ok none
        else
          match FileBlake3MD5 H.hb H.hm fs p with
          | .error e => .error e
          | .ok dg =>
            .ok (some
              { ID := 0, Key := H.blake3String (filepathAbs cwd p),
                Name := filepathBase p, Path := filepathAbs cwd p, Status := 0,
                MD5 := dg.2, Blake3 := dg.1, Size := st.size, Tag := tag,
                MTime := st.mtime, CTime := st.ctime }) := by
  unfold processFileInfoOnly
  rw [hst]

/-- With `force=false`, a worker that finds the absolute path in the
catalog skips the file: no fingerprinting result, no candidate
entry. -/
theorem processFileInfoOnly_skip {σ₁ σ₂ : Type} (H : HashCtx σ₁ σ₂)
    (fs : FileSystem) (cwd : String) (cat : Catalog) (p tag : String)
    (st : FileData) (hst : fs p = some st)
    (hhit : (getFileInfoByPath cat (filepathAbs cwd p)).isSome) :
    processFileInfoOnly H fs cwd cat p tag false = .ok none := by
  rw [processFileInfoOnly_some hst]
  simp [hhit]

/-- Any candidate entry a worker produces is placed at the file's
absolute path and keyed by the hash of that absolute path. -/
theorem processFileInfoOnly_ok_shape {σ₁ σ₂ : Type} {H : HashCtx σ₁ σ₂}
    {fs : FileSystem} {cwd : String} {cat : Catalog} {p tag : String}
    {force : Bool} {en : FileInfo}
    (h : processFileInfoOnly H fs cwd cat p tag force = .ok (some en)) :
    en.Path = filepathAbs cwd p ∧ WFRow H en := by
  cases hst : fs p with
  | none =>
    rw [processFileInfoOnly_none hst] at h
    cases h
  | some st =>
    rw [processFileInfoOnly_some hst] at h
    by_cases hc : (!force && (getFileInfoByPath cat (filepathAbs cwd p)).isSome) = true
    · rw [if_pos hc] at h
      exact absurd h (by simp)
    · rw [if_neg hc] at h
      cases hh : FileBlake3MD5 H.hb H.hm fs p with
      | error e =>
        rw [hh] at h
        cases h
      | ok dg =>
        rw [hh] at h
        cases h
        exact ⟨rfl, rfl⟩

/-- Every candidate entry of a run is well-keyed. -/
theorem runSyncEntries_wf {σ₁ σ₂ : Type} {H : HashCtx σ₁ σ₂}
    {fs : FileSystem} {cwd : String} {cat : Catalog} {paths : List String}
    {tag : String} {force : Bool} :
    ∀ e ∈ runSyncEntries H fs cwd cat paths tag force, WFRow H e := by
  intro e he
  rcases List.mem_filterMap.mp he with ⟨p, _, hfp⟩
  cases hw : processFileInfoOnly H fs cwd cat p tag force with
  | error s => rw [hw] at hfp; cases hfp
  | ok o =>
    cases o with
    | none => rw [hw] at hfp; cases hfp
    | some e' =>
      rw [hw] at hfp
      cases hfp
      exact (processFileInfoOnly_ok_shape hw).2

/-- **C5.** Sync with `force=false` is idempotent: a worker that finds
the file's absolute path already cataloged skips it and produces no
candidate entry; consequently a second run over an unchanged tree
against the catalog the first run left behind produces an empty
candidate-entry list — zero upserts — and leaves the catalog exactly
as the first run left it.  (Hypotheses: the catalog's rows are keyed
by the path hash of their own path, and the path hash is
collision-free.) -/
theorem syncForceFalse_idempotent {σ₁ σ₂ : Type} (H : HashCtx σ₁ σ₂)
    (hinj : Function.Injective H.blake3String)
    (fs : FileSystem) (cwd : String) (cat : Catalog) (paths : List String)
    (tag tag' : String) (hwf : WFCatalog H cat) :
    (∀ (c : Catalog) (p : String) (st : FileData), fs p = some st →
        (∃ r ∈ c, r.Path = filepathAbs cwd p) →
        processFileInfoOnly H fs cwd c p tag' false = .ok none)
  ∧ runSyncEntries H fs cwd (runSync H fs cwd cat paths tag false) paths tag' false = []
  ∧ runSync H fs cwd (runSync H fs cwd cat paths tag false) paths tag' false
      = runSync H fs cwd cat paths tag false := by
  have hskip : ∀ (c : Catalog) (p : String) (st : FileData), fs p = some st →
      (∃ r ∈ c, r.Path = filepathAbs cwd p) →
      processFileInfoOnly H fs cwd c p tag' false = .ok none := by
    intro c p st hst hex
    exact processFileInfoOnly_skip H fs cwd c p tag' st hst
      ((getFileInfoByPath_isSome c _).mpr hex)
  have hwf1 : ∀ e ∈ runSyncEntries H fs cwd cat paths tag false, WFRow H e :=
    runSyncEntries_wf
  have hnil : runSyncEntries H fs cwd (runSync H fs cwd cat paths tag false)
      paths tag' false = [] := by
    unfold runSyncEntries
    rw [List.filterMap_eq_nil_iff]
    intro p hp
    cases hst : fs p with
    | none =>
      simp [processFileInfoOnly_none hst]
    | some st =>
      by_cases hhit : (getFileInfoByPath (runSync H fs cwd cat paths tag false)
          (filepathAbs cwd p)).isSome
      · simp [processFileInfoOnly_skip H fs cwd _ p tag' st hst hhit]
      · have hfalse : (getFileInfoByPath (runSync H fs cwd cat paths tag false)
            (filepathAbs cwd p)).isSome = false := by
          simpa using hhit
        by_cases hhit0 : (getFileInfoByPath cat (filepathAbs cwd p)).isSome
        · exact absurd ((getFileInfoByPath_isSome _ _).mpr
            (foldl_upsert_path hinj _ cat hwf hwf1
              (.inl ((getFileInfoByPath_isSome _ _).mp hhit0)))) hhit
        · have hfalse0 : (getFileInfoByPath cat (filepathAbs cwd p)).isSome = false := by
            simpa using hhit0
          cases hhash : FileBlake3MD5 H.hb H.hm fs p with
          | error err =>
            have hw2 : processFileInfoOnly H fs cwd
                (runSync H fs cwd cat paths tag false) p tag' false = .error err := by
              rw [processFileInfoOnly_some hst, if_neg (by simp [hfalse]), hhash]
            simp [hw2]
          | ok dg =>
            exfalso
            apply hhit
            have hw1 : processFileInfoOnly H fs cwd cat p tag false
                = .ok (some
                    { ID := 0, Key := H.blake3String (filepathAbs cwd p),
                      Name := filepathBase p, Path := filepathAbs cwd p, Status := 0,
                      MD5 := dg.2, Blake3 := dg.1, Size := st.size, Tag := tag,
                      MTime := st.mtime, CTime := st.ctime }) := by
              rw [processFileInfoOnly_some hst, if_neg (by simp [hfalse0]), hhash]
            have hmem : ({ ID := 0, Key := H.blake3String (filepathAbs cwd p),
                           Name := filepathBase p, Path := filepathAbs cwd p,
                           Status := 0, MD5 := dg.2, Blake3 := dg.1,
                           Size := st.size, Tag := tag, MTime := st.mtime,
                           CTime := st.ctime } : FileInfo)
                ∈ runSyncEntries H fs cwd cat paths tag false :=
              List.mem_filterMap.mpr ⟨p, hp, by simp [hw1]⟩
            exact (getFileInfoByPath_isSome _ _).mpr
              (foldl_upsert_path hinj _ cat hwf hwf1 (.inr ⟨_, hmem, rfl⟩))
  refine ⟨hskip, hnil, ?_⟩
  show (runSyncEntries H fs cwd (runSync H fs cwd cat paths tag false)
      paths tag' false).foldl upsertFileInfo (runSync H fs cwd cat paths tag false)
    = runSync H fs cwd cat paths tag false
  rw [hnil]
  rfl

/-- Witness for C5: a concrete one-file tree synced into an empty
catalog; the second run produces no entries and changes nothing, and
the skip conjunct fires on the concrete catalog the first run built. -/
theorem syncForceFalse_idempotent_witness :
    runSyncEntries idHashCtx exampleFS "" (runSync idHashCtx exampleFS ""
        [] ["/t/f.bin"] "batch1" false) ["/t/f.bin"] "batch2" false = []
  ∧ runSync idHashCtx exampleFS "" (runSync idHashCtx exampleFS ""
        [] ["/t/f.bin"] "batch1" false) ["/t/f.bin"] "batch2" false
      = runSync idHashCtx exampleFS "" [] ["/t/f.bin"] "batch1" false := by
  have h := syncForceFalse_idempotent idHashCtx (fun _ _ h => h) exampleFS ""
    [] ["/t/f.bin"] "batch1" "batch2" (fun r hr => by cases hr)
  exact ⟨h.2.1, h.2.2⟩

/-- Upserting a row with a fresh key into a one-row catalog appends a
second row. -/
theorem upsertFileInfo_singleton_ne (s e : FileInfo) (hne : s.Key ≠ e.Key) :
    upsertFileInfo [s] e = [s, e] := by
  unfold upsertFileInfo
  have hanyf : ([s].any (fun r => r.Key == e.Key)) = false := by
    simp [hne]
  rw [hanyf]
  rfl

/-- **C4 (failing input).** The duplicate scan keys its fresh rows by
the Blake3 of the path exactly as walked, not of the absolute path
(despite the source's own comment "Key is Blake3 of absolute path"):
scanning `photos/a.jpg` from `/home/user` builds a row keyed by the
hash of `"photos/a.jpg"`, while the sync worker keys the same physical
file by the hash of `"/home/user/photos/a.jpg"`; upserting the scan
row into a catalog already holding the sync row appends a second row
for the same file instead of updating the existing one. -/
theorem dupScan_key_from_raw_path {σ₁ σ₂ : Type} (H : HashCtx σ₁ σ₂)
    (hinj : Function.Injective H.blake3String) :
    ∃ e s, dupScanNewEntry H relativeFS "photos/a.jpg" = some e
      ∧ processFileInfoOnly H relativeFS "/home/user" [] "photos/a.jpg" "" false
          = .ok (some s)
      ∧ e.Key = H.blake3String "photos/a.jpg"
      ∧ s.Key = H.blake3String "/home/user/photos/a.jpg"
      ∧ e.Key ≠ s.Key
      ∧ upsertFileInfo [s] e = [s, e] := by
  refine ⟨_, _, rfl, rfl, rfl, ?_, ?_, ?_⟩
  · exact congrArg H.blake3String (by decide)
  · intro h
    exact absurd (hinj h) (by decide)
  · exact upsertFileInfo_singleton_ne _ _
      (fun hh => absurd (hinj hh.symm) (by decide))

/-- Witness for C4's failing-input theorem at a concrete injective
hash context. -/
theorem dupScan_key_from_raw_path_witness :
    ∃ e s, dupScanNewEntry idHashCtx relativeFS "photos/a.jpg" = some e
      ∧ processFileInfoOnly idHashCtx relativeFS "/home/user" [] "photos/a.jpg" "" false
          = .ok (some s)
      ∧ e.Key = idHashCtx.blake3String "photos/a.jpg"
      ∧ s.Key = idHashCtx.blake3String "/home/user/photos/a.jpg"
      ∧ e.Key ≠ s.Key
      ∧ upsertFileInfo [s] e = [s, e] :=
  dupScan_key_from_raw_path idHashCtx (fun _ _ h => h)

/-! ## The sync pipeline's completion race (C1) -/

/-- Once the main goroutine has returned (process exit), no thread
changes the state: the collector goroutine is gone. -/
theorem pipeStep_frozen (batchSize : Nat) (t : Tid) (s : PipeState)
    (h2 : s.mainPC = 2) : pipeStep batchSize t s = s := by
  cases t with
  | main => simp [pipeStep, h2]
  | collector => simp [pipeStep, h2]

/-- No schedule changes a state whose main goroutine has returned. -/
theorem pipeRun_frozen (batchSize : Nat) (sched : List Tid) (s : PipeState)
    (h2 : s.mainPC = 2) : pipeRun batchSize sched s = s := by
  induction sched with
  | nil => rfl
  | cons t ts ih =>
    show pipeRun batchSize ts (pipeStep batchSize t s) = s
    rw [pipeStep_frozen _ _ _ h2]
    exact ih

/-- **C1 (failing input).** One produced entry, batch size 10 (the
default): the final batch is partial.  The schedule in which the main
goroutine takes its two remaining steps first — `close(resultCh)`
(line 269), then print "Sync operation completed." and return (lines
271-272) — is a legal interleaving, since nothing joins the collector
goroutine.  In the resulting execution completion is reported while
the entry still sits unflushed in the channel and the catalog has
received no upsert, and no continuation of the schedule can ever
flush it: the process has exited. -/
theorem pipeline_completion_before_flush (e : FileInfo) (extra : List Tid) :
    (pipeRun 10 ([Tid.main, Tid.main] ++ extra)
        { queue := [e], closed := false, batch := [], cat := [],
          mainPC := 0, completionReported := false,
          collectorDone := false }).completionReported = true
  ∧ (pipeRun 10 ([Tid.main, Tid.main] ++ extra)
        { queue := [e], closed := false, batch := [], cat := [],
          mainPC := 0, completionReported := false,
          collectorDone := false }).cat = [] := by
  have happ : pipeRun 10 ([Tid.main, Tid.main] ++ extra)
      { queue := [e], closed := false, batch := [], cat := [],
        mainPC := 0, completionReported := false, collectorDone := false }
    = pipeRun 10 extra
        { queue := [e], closed := true, batch := [], cat := [],
          mainPC := 2, completionReported := true, collectorDone := false } := by
    show List.foldl (fun s t => pipeStep 10 t s)
        { queue := [e], closed := false, batch := [], cat := [],
          mainPC := 0, completionReported := false, collectorDone := false }
        ([Tid.main, Tid.main] ++ extra) = _
    rw [List.foldl_append]
    rfl
  rw [happ, pipeRun_frozen 10 extra _ rfl]
  exact ⟨rfl, rfl⟩

/-- Witness for C1's failing-input theorem: a concrete entry, with the
collector even being scheduled afterwards — too late, the process is
gone. -/
theorem pipeline_completion_before_flush_witness :
    (pipeRun 10 [Tid.main, Tid.main, Tid.collector, Tid.collector]
        { queue := [{ ID := 1, Key := "k", Name := "f", Path := "/t/f",
                      Status := 0, MD5 := "m", Blake3 := "b", Size := 1,
                      Tag := "", MTime := 0, CTime := 0 }],
          closed := false, batch := [], cat := [],
          mainPC := 0, completionReported := false,
          collectorDone := false }).completionReported = true
  ∧ (pipeRun 10 [Tid.main, Tid.main, Tid.collector, Tid.collector]
        { queue := [{ ID := 1, Key := "k", Name := "f", Path := "/t/f",
                      Status := 0, MD5 := "m", Blake3 := "b", Size := 1,
                      Tag := "", MTime := 0, CTime := 0 }],
          closed := false, batch := [], cat := [],
          mainPC := 0, completionReported := false,
          collectorDone := false }).cat = [] :=
  pipeline_completion_before_flush
    { ID := 1, Key := "k", Name := "f", Path := "/t/f", Status := 0,
      MD5 := "m", Blake3 := "b", Size := 1, Tag := "", MTime := 0, CTime := 0 }
    [Tid.collector, Tid.collector]


/-! ## The merge engine (C2) -/

/-- Append on the left is cancellable for strings. -/
theorem string_append_left_cancel {a x y : String} (h : a ++ x = a ++ y) :
    x = y := by
  have hd : a.data ++ x.data = a.data ++ y.data := by
    have hdata := congrArg String.data h
    simpa [String.data_append] using hdata
  have hxy := List.append_cancel_left hd
  cases x
  cases y
  exact congrArg String.mk hxy

/-- The copy loop with no failing copies succeeds and copies exactly
its input list, in order, each file to the backup directory at its
relative path. -/
theorem mergeCopyLoop_ok (sourceDir backupDir : String)
    (copyFails : String → Bool) :
    ∀ (files : List (String × FileHashes)),
      (∀ f ∈ files, copyFails (sourceDir ++ "/" ++ f.1) = false) →
      mergeCopyLoop sourceDir backupDir copyFails files
        = .ok (files.map (fun f =>
            (sourceDir ++ "/" ++ f.1, backupDir ++ "/" ++ f.1)))
  | [], _ => rfl
  | (rel, h) :: rest, hok => by
    have hr : copyFails (sourceDir ++ "/" ++ rel) = false :=
      hok (rel, h) (by simp)
    simp only [mergeCopyLoop, hr, Bool.false_eq_true, if_false]
    rw [mergeCopyLoop_ok sourceDir backupDir copyFails rest
      (fun f hf => hok f (by simp [hf]))]
    rfl

/-- **C2.** A completed merge run copies exactly the source files
whose digest pair occurs under no target file, each into the dated
backup subtree of the target at its path relative to the source root,
and copies no source file whose digest pair already occurs under the
target.  (Hypotheses: the walk's relative paths are distinct — Go map
keys — and no copy fails; a failing copy aborts the run instead.) -/
theorem performMerge_copies_novel (sourceDir targetDir dateStr : String)
    (copyFails : String → Bool)
    (sourceFiles targetFiles : List (String × FileHashes))
    (hnd : (sourceFiles.map Prod.fst).Nodup)
    (hok : ∀ f ∈ sourceFiles, copyFails (sourceDir ++ "/" ++ f.1) = false) :
    performMerge sourceDir targetDir dateStr copyFails sourceFiles targetFiles
      = .ok ((sourceFiles.filter (fun s => !pairInTarget targetFiles s.2)).map
          (fun s => (sourceDir ++ "/" ++ s.1,
                     (targetDir ++ "/" ++ "FSAK_" ++ dateStr) ++ "/" ++ s.1)))
  ∧ (∀ s ∈ sourceFiles, pairInTarget targetFiles s.2 = true →
      ∀ copies,
        performMerge sourceDir targetDir dateStr copyFails sourceFiles targetFiles
          = .ok copies →
        ∀ dst, (sourceDir ++ "/" ++ s.1, dst) ∉ copies) := by
  have hmain : performMerge sourceDir targetDir dateStr copyFails
      sourceFiles targetFiles
    = .ok ((sourceFiles.filter (fun s => !pairInTarget targetFiles s.2)).map
        (fun s => (sourceDir ++ "/" ++ s.1,
                   (targetDir ++ "/" ++ "FSAK_" ++ dateStr) ++ "/" ++ s.1))) := by
    unfold performMerge
    exact mergeCopyLoop_ok sourceDir (targetDir ++ "/" ++ "FSAK_" ++ dateStr)
      copyFails _ (fun f hf => hok f (List.mem_of_mem_filter hf))
  refine ⟨hmain, ?_⟩
  intro s hs hpair copies hcopies dst hmem
  rw [hmain] at hcopies
  have hcopies' : copies
      = (sourceFiles.filter (fun s => !pairInTarget targetFiles s.2)).map
          (fun s => (sourceDir ++ "/" ++ s.1,
                     (targetDir ++ "/" ++ "FSAK_" ++ dateStr) ++ "/" ++ s.1)) :=
    (Except.ok.injEq _ _ ▸ hcopies).symm
  rw [hcopies'] at hmem
  rcases List.mem_map.mp hmem with ⟨s', hs', heq⟩
  have hsrc : sourceDir ++ "/" ++ s'.1 = sourceDir ++ "/" ++ s.1 :=
    congrArg Prod.fst heq
  have hfst : s'.1 = s.1 :=
    @string_append_left_cancel (sourceDir ++ "/") s'.1 s.1 hsrc
  have hsmem' : s' ∈ sourceFiles := List.mem_of_mem_filter hs'
  have hss : s' = s := List.inj_on_of_nodup_map hnd hsmem' hs hfst
  have hnovel := (List.mem_filter.mp hs').2
  rw [hss, hpair] at hnovel
  simp at hnovel

/-- Witness for C2: the specification example — merging tree A
(`a.txt` content X, `b.txt` content Y) into tree B (`c.txt` content X)
copies only `b.txt`, into the dated backup subtree. -/
theorem performMerge_copies_novel_witness :
    performMerge "/A" "/B" "250101" (fun _ => false)
        [("a.txt", { MD5 := "mx", Blake3 := "bx" }),
         ("b.txt", { MD5 := "my", Blake3 := "by" })]
        [("c.txt", { MD5 := "mx", Blake3 := "bx" })]
      = .ok [("/A/b.txt", "/B/FSAK_250101/b.txt")] := by
  have h := (performMerge_copies_novel "/A" "/B" "250101" (fun _ => false)
      [("a.txt", { MD5 := "mx", Blake3 := "bx" }),
       ("b.txt", { MD5 := "my", Blake3 := "by" })]
      [("c.txt", { MD5 := "mx", Blake3 := "bx" })]
      (by decide) (fun f _ => rfl)).1
  rw [h]
  rfl


/-! ## The duplicate resolver's error handling (C8, C3) -/

/-- **C8.** In the duplicate resolver's action loop, when every move
succeeds the loop returns successfully whatever the catalog-delete
outcomes: every chosen file is moved to the deletion area (the moves
of files whose delete fails included — no move is undone), each failed
delete adds a warning and only a warning, and exactly the files whose
delete succeeds are counted as processed. -/
theorem processChosen_delete_failure_continues {σ₁ σ₂ : Type}
    (H : HashCtx σ₁ σ₂) (renameFails deleteFails : String → Bool)
    (deletedDir : String) (relPath : String → String) :
    ∀ (chosen : List FileInfo) (st : MoveState),
      (∀ f ∈ chosen, renameFails f.Path = false) →
      ∃ st', processChosen H renameFails deleteFails deletedDir relPath chosen st
              = .ok st'
        ∧ st'.moved = st.moved
            ++ chosen.map (fun f => (f.Path, deletedDir ++ "/" ++ relPath f.Path))
        ∧ st'.warnings = st.warnings
            ++ (chosen.filter (fun f => deleteFails (H.blake3String f.Path))).map
                (fun f => "could not delete record for " ++ f.Path)
        ∧ st'.processed = st.processed
            + (chosen.filter (fun f => !deleteFails (H.blake3String f.Path))).length := by
  intro chosen
  induction chosen with
  | nil =>
    intro st _
    exact ⟨st, rfl, by simp, by simp, by simp⟩
  | cons f rest ih =>
    intro st hmv
    have hf : renameFails f.Path = false := hmv f (by simp)
    by_cases hdel : deleteFails (H.blake3String f.Path) = true
    · rcases ih { st with
          moved := st.moved ++ [(f.Path, deletedDir ++ "/" ++ relPath f.Path)],
          warnings := st.warnings ++ ["could not delete record for " ++ f.Path] }
        (fun g hg => hmv g (by simp [hg])) with ⟨st', hrun, hm, hw, hp⟩
      refine ⟨st', ?_, ?_, ?_, ?_⟩
      · simp only [processChosen, hf, Bool.false_eq_true, if_false, hdel, if_true]
        exact hrun
      · rw [hm]
        simp
      · rw [hw]
        simp [hdel]
      · rw [hp]
        simp [hdel]
    · have hdel' : deleteFails (H.blake3String f.Path) = false := by
        simpa using hdel
      rcases ih { st with
          moved := st.moved ++ [(f.Path, deletedDir ++ "/" ++ relPath f.Path)],
          cat := deleteFileInfo st.cat (H.blake3String f.Path),
          processed := st.processed + 1 }
        (fun g hg => hmv g (by simp [hg])) with ⟨st', hrun, hm, hw, hp⟩
      refine ⟨st', ?_, ?_, ?_, ?_⟩
      · simp only [processChosen, hf, Bool.false_eq_true, if_false, hdel',
          if_true]
        exact hrun
      · rw [hm]
        simp
      · rw [hw]
        simp [hdel']
      · rw [hp]
        simp [hdel']
        omega

/-- Witness for C8: two chosen files, both moves succeed, the first
file's catalog delete fails: the loop still returns ok, both files are
moved, one warning is recorded, one file counts as processed. -/
theorem processChosen_delete_failure_continues_witness :
    ∃ st', processChosen idHashCtx (fun _ => false) (fun k => k == "/d/a")
            "/del" (fun p => p) [exFileA, exFileB]
            { moved := [], warnings := [], processed := 0, cat := [] }
          = .ok st'
      ∧ st'.moved = [] ++ [exFileA, exFileB].map
            (fun f => (f.Path, "/del" ++ "/" ++ f.Path))
      ∧ st'.warnings = [] ++ ([exFileA, exFileB].filter
            (fun f => idHashCtx.blake3String f.Path == "/d/a")).map
            (fun f => "could not delete record for " ++ f.Path)
      ∧ st'.processed = 0 + ([exFileA, exFileB].filter
            (fun f => !(idHashCtx.blake3String f.Path == "/d/a"))).length :=
  processChosen_delete_failure_continues idHashCtx (fun _ => false)
    (fun k => k == "/d/a") "/del" (fun p => p) [exFileA, exFileB]
    { moved := [], warnings := [], processed := 0, cat := [] }
    (fun _ _ => rfl)

/-- **C3 (counterexample).** A failed move of one chosen member does
abort the run: with two chosen files and the first one's rename
failing, the loop returns an error immediately — the second file is
never attempted (the result carries no state at all). -/
theorem dupMoveFailure_aborts_counterexample :
    processChosen idHashCtx (fun p => p == "/d/a") (fun _ => false) "/del"
        (fun _ => "x") [exFileA, exFileB]
        { moved := [], warnings := [], processed := 0, cat := [] }
      = .error "error moving file /d/a to /del/x" := by
  rfl

/-- **C3 (amended).** Error handling of the duplicate flows as the
code actually has it: (1) the dup-scan walker skips entries whose stat
failed and keeps walking; (2) a file whose fingerprint or stat fails is
skipped by the scan, which continues with the remaining files; (3) a
failed move of a chosen member aborts the whole run with an error;
(4) in the sync pipeline's walk a broken entry aborts the current
root's traversal — paths yielded before it stand, later ones are lost
(the run then merely logs the walk error and moves to the next
root). -/
theorem dupErrorHandling_amended :
    (∀ (xs : List WalkEntry) (b : String) (ys : List WalkEntry),
        getAllFilesInFolder (xs ++ .broken b :: ys)
          = getAllFilesInFolder xs ++ getAllFilesInFolder ys)
  ∧ (∀ {σ₁ σ₂ : Type} (H : HashCtx σ₁ σ₂) (fs : FileSystem) (cat : Catalog)
        (p : String) (rest : List String),
        getFileInfoByPath cat p = none → dupScanNewEntry H fs p = none →
        dupScanFiles H fs cat (p :: rest) = dupScanFiles H fs cat rest)
  ∧ (∀ {σ₁ σ₂ : Type} (H : HashCtx σ₁ σ₂)
        (renameFails deleteFails : String → Bool) (deletedDir : String)
        (relPath : String → String) (f : FileInfo) (rest : List FileInfo)
        (st : MoveState),
        renameFails f.Path = true →
        processChosen H renameFails deleteFails deletedDir relPath (f :: rest) st
          = .error ("error moving file " ++ f.Path ++ " to "
              ++ (deletedDir ++ "/" ++ relPath f.Path)))
  ∧ (∀ (pats : List RPattern) (xs : List WalkEntry) (b : String)
        (ys : List WalkEntry),
        xs.all (fun e => !isBroken e) = true →
        walkCollectSync pats (xs ++ .broken b :: ys)
          = ((walkCollectSync pats xs).1, true)) := by
  refine ⟨?_, ?_, ?_, ?_⟩
  · intro xs b ys
    simp [getAllFilesInFolder, List.filterMap_append]
  · intro σ₁ σ₂ H fs cat p rest h1 h2
    simp only [dupScanFiles, h1, h2]
  · intro σ₁ σ₂ H renameFails deleteFails deletedDir relPath f rest st hf
    simp only [processChosen, hf, if_true]
  · intro pats xs b ys hfree
    induction xs with
    | nil => rfl
    | cons e xs ih =>
      have he : isBroken e = false := by
        have := (List.all_eq_true.mp hfree) e (by simp)
        simpa using this
      have hfree' : xs.all (fun e => !isBroken e) = true := by
        rw [List.all_eq_true] at hfree ⊢
        exact fun g hg => hfree g (by simp [hg])
      cases e with
      | file p =>
        by_cases hbl : isBlacklisted pats p = true
        · simp only [List.cons_append, walkCollectSync, hbl, if_true]
          exact ih hfree'
        · have hbl' : isBlacklisted pats p = false := by simpa using hbl
          simp only [List.cons_append, walkCollectSync, hbl',
            Bool.false_eq_true, if_false, List.append_eq]
          rw [ih hfree']
      | dir p =>
        simp only [List.cons_append, walkCollectSync]
        exact ih hfree'
      | broken p =>
        simp [isBroken] at he

/-- Witness for C3's amended theorem at concrete inputs: a broken
entry inside a dup-scan walk is skipped, an unreadable file is skipped
by the scan, a failing move aborts, and a broken entry cuts the sync
walk short while keeping what was already yielded. -/
theorem dupErrorHandling_amended_witness :
    getAllFilesInFolder [.file "a", .broken "bad", .file "b"]
        = getAllFilesInFolder [.file "a"] ++ getAllFilesInFolder [.file "b"]
  ∧ dupScanFiles idHashCtx (fun _ => none) [] ["gone", "also-gone"]
        = dupScanFiles idHashCtx (fun _ => none) [] ["also-gone"]
  ∧ processChosen idHashCtx (fun _ => true) (fun _ => false) "/del"
        (fun _ => "x") [exFileA]
        { moved := [], warnings := [], processed := 0, cat := [] }
        = .error ("error moving file " ++ exFileA.Path ++ " to "
            ++ ("/del" ++ "/" ++ "x"))
  ∧ walkCollectSync [] [.file "a", .broken "bad", .file "b"]
        = ((walkCollectSync [] [.file "a"]).1, true) := by
  obtain ⟨h1, h2, h3, h4⟩ := dupErrorHandling_amended
  exact ⟨h1 [.file "a"] "bad" [.file "b"],
         h2 idHashCtx (fun _ => none) [] "gone" ["also-gone"] rfl rfl,
         h3 idHashCtx (fun _ => true) (fun _ => false) "/del" (fun _ => "x")
           exFileA [] { moved := [], warnings := [], processed := 0, cat := [] }
           rfl,
         h4 [] [.file "a"] "bad" [.file "b"] (by decide)⟩

/-! ## Blacklist loading and filtering (C7) -/

/-- No character QuoteMeta escapes is alphanumeric, so every escape it
emits parses. -/
theorem specials_not_alphanum {c : Char} (h : c ∈ goRegexSpecial) :
    c.isAlphanum = false := by
  have hall : goRegexSpecial.all (fun c => !c.isAlphanum) = true := by decide
  have hc := List.all_eq_true.mp hall c h
  simpa using hc

/-- Every metacharacter outside the modelled fragment is special, so
QuoteMeta escapes it. -/
theorem unsupported_mem_special {c : Char} (h : c ∈ unsupportedMeta) :
    c ∈ goRegexSpecial := by
  have hall : unsupportedMeta.all (fun c => decide (c ∈ goRegexSpecial)) = true := by
    decide
  have hc := List.all_eq_true.mp hall c h
  simpa using hc

/-- Parsing a quote-meta'd text followed by the end anchor yields
exactly its characters as literal atoms, anchored at the end. -/
theorem parseBody_quoteMeta (l : List Char) :
    parseBody (quoteMeta l ++ ['$']) = .ok (l.map RAtom.ch, true) := by
  induction l with
  | nil => rfl
  | cons c rest ih =>
    by_cases hc : c ∈ goRegexSpecial
    · have hq : quoteMeta (c :: rest) = '\\' :: c :: quoteMeta rest := by
        simp [quoteMeta, hc]
      rw [hq]
      have halpha : c.isAlphanum = false := specials_not_alphanum hc
      show parseBody ('\\' :: c :: (quoteMeta rest ++ ['$'])) = _
      simp [parseBody, halpha, ih, Except.map]
    · have hq : quoteMeta (c :: rest) = c :: quoteMeta rest := by
        simp [quoteMeta, hc]
      rw [hq]
      have h1 : ¬(c = '$') := fun h => hc (by rw [h]; decide)
      have h2 : ¬(c = '\\') := fun h => hc (by rw [h]; decide)
      have h3 : ¬(c = '.') := fun h => hc (by rw [h]; decide)
      have h4 : ¬(c ∈ unsupportedMeta) := fun h => hc (unsupported_mem_special h)
      show parseBody (c :: (quoteMeta rest ++ ['$'])) = _
      rw [parseBody.eq_def]
      simp [h1, h2, h3, h4, ih, Except.map]

/-- A fully anchored literal-atom pattern matches exactly the literal
itself. -/
theorem atomsMatch_map_ch : ∀ (l s : List Char),
    atomsMatch (l.map RAtom.ch) s = true ↔ s = l
  | [], [] => by simp [atomsMatch]
  | [], x :: xs => by simp [atomsMatch]
  | c :: l, [] => by simp [atomsMatch]
  | c :: l, x :: xs => by
    simp only [List.map_cons, atomsMatch, atomMatches, Bool.and_eq_true,
      beq_iff_eq, List.cons.injEq, atomsMatch_map_ch l xs]
    constructor
    · rintro ⟨hcx, hrest⟩
      exact ⟨hcx.symm, hrest⟩
    · rintro ⟨hxc, hrest⟩
      exact ⟨hxc.symm, hrest⟩

/-- **C7.** Blacklist semantics: a line wrapped in slashes is compiled
as a regex and excludes exactly the paths that regex matches; any
other non-blank line excludes exactly the path equal to it (special
characters are quoted, the pattern anchored at both ends); a blank
line contributes no pattern; a compile error in a line makes the whole
load fail with that error; and the pattern `/\.tmp$/` over
`notes.txt` and `cache.tmp` lets the walker yield only
`notes.txt`. -/
theorem readBlacklist_spec :
    (∀ (l inner : List Char) (r : RPattern),
        trimSpace l = '/' :: inner ++ ['/'] →
        regexpCompile inner = .ok r →
        readBlacklistLines [l] = .ok [r]
        ∧ ∀ path : String, isBlacklisted [r] path = rMatch r path.data)
  ∧ (∀ (l lit : List Char),
        trimSpace l = lit → lit ≠ [] →
        (decide (2 ≤ lit.length) && (lit.head? == some '/')
          && (lit.getLast? == some '/')) = false →
        ∃ p, readBlacklistLines [l] = .ok [p]
          ∧ ∀ path : String, (isBlacklisted [p] path = true ↔ path.data = lit))
  ∧ (∀ (l : List Char) (ls : List (List Char)),
        trimSpace l = [] →
        readBlacklistLines (l :: ls) = readBlacklistLines ls)
  ∧ (∀ (l inner : List Char) (e : String) (ls : List (List Char)),
        trimSpace l = '/' :: inner ++ ['/'] →
        regexpCompile inner = .error e →
        readBlacklistLines (l :: ls) = .error e)
  ∧ (∃ r, readBlacklistLines [['/', '\\', '.', 't', 'm', 'p', '$', '/']]
          = .ok [r]
        ∧ walkFilter [r] ["notes.txt", "cache.tmp"] = ["notes.txt"]) := by
  have hlast : ∀ inner : List Char,
      ('/' :: (inner ++ ['/']) : List Char).getLast? = some '/' := by
    intro inner
    show (('/' :: inner) ++ ['/']).getLast? = some '/'
    exact List.getLast?_concat _
  have hslice : ∀ inner : List Char,
      (('/' :: (inner ++ ['/']) : List Char).drop 1).dropLast = inner := by
    intro inner
    show (inner ++ ['/']).dropLast = inner
    exact List.dropLast_concat
  have hlen : ∀ inner : List Char,
      decide (2 ≤ ('/' :: (inner ++ ['/']) : List Char).length) = true := by
    intro inner
    simp [List.length_append]
  refine ⟨?_, ?_, ?_, ?_, ?_⟩
  · intro l inner r htrim hcomp
    constructor
    · simp [readBlacklistLines, htrim, hlast inner, hslice inner,
        hlen inner, hcomp]
    · intro path
      simp [isBlacklisted]
  · intro l lit htrim hne hcond
    refine ⟨⟨true, lit.map RAtom.ch, true⟩, ?_, ?_⟩
    · have hcompile : regexpCompile ('^' :: (quoteMeta lit ++ ['$']))
          = .ok ⟨true, lit.map RAtom.ch, true⟩ := by
        show (parseBody (quoteMeta lit ++ ['$'])).map _ = _
        rw [parseBody_quoteMeta]
        rfl
      simp [readBlacklistLines, htrim, hne, hcond, hcompile]
    · intro path
      have hanch : rMatch ⟨true, lit.map RAtom.ch, true⟩ path.data
          = atomsMatch (lit.map RAtom.ch) path.data := rfl
      simp [isBlacklisted, hanch, atomsMatch_map_ch]
  · intro l ls htrim
    simp [readBlacklistLines, htrim]
  · intro l inner e ls htrim hcomp
    simp [readBlacklistLines, htrim, hlast inner, hslice inner,
      hlen inner, hcomp]
  · refine ⟨⟨false, [.ch '.', .ch 't', .ch 'm', .ch 'p'], true⟩, ?_, ?_⟩
    · decide
    · decide

/-- Witness for C7 at concrete inputs: a regex line, a literal line, a
blank line, a malformed line (trailing backslash inside the slashes),
and the `/\.tmp$/` example. -/
theorem readBlacklist_spec_witness :
    (readBlacklistLines [['/', 'a', '/']] = .ok [⟨false, [RAtom.ch 'a'], false⟩]
      ∧ ∀ path : String, isBlacklisted [⟨false, [RAtom.ch 'a'], false⟩] path
          = rMatch ⟨false, [RAtom.ch 'a'], false⟩ path.data)
  ∧ (∃ p, readBlacklistLines [['n', 'o']] = .ok [p]
        ∧ ∀ path : String, (isBlacklisted [p] path = true ↔ path.data = ['n', 'o']))
  ∧ readBlacklistLines [[' '], ['n', 'o']] = readBlacklistLines [['n', 'o']]
  ∧ readBlacklistLines [['/', '\\', '/']] = .error "trailing backslash"
  ∧ (∃ r, readBlacklistLines [['/', '\\', '.', 't', 'm', 'p', '$', '/']]
          = .ok [r]
        ∧ walkFilter [r] ["notes.txt", "cache.tmp"] = ["notes.txt"]) := by
  obtain ⟨h1, h2, h3, h4, h5⟩ := readBlacklist_spec
  exact ⟨h1 ['/', 'a', '/'] ['a'] ⟨false, [RAtom.ch 'a'], false⟩
           (by decide) (by decide),
         h2 ['n', 'o'] ['n', 'o'] (by decide) (by decide) (by decide),
         h3 [' '] [['n', 'o']] (by decide),
         h4 ['/', '\\', '/'] ['\\'] "trailing backslash" [] (by decide)
           (by decide),
         h5⟩

end Fsak
